import Mathlib

set_option maxRecDepth 100000

/-!
# bakery: error responses and DASH caption filtering

A shallow embedding of `handlers/error.go` (`NewErrorResponse`, `httpError`)
and of `pkg/filters/dash.go` (`DASHFilter.FilterManifest`,
`filterCaptionTypes`), together with the parts of Go's `strings`,
`encoding/json` and `net/http` packages that they call, and the properties
of both that the specification states.

Conventions of the embedding:

* a Go `string` is the list of its characters (`GoString`); `len`, slicing
  and `Index` count the elements of that list. The separator `": "` is
  ASCII, and an ASCII byte never lies inside a multi-byte character, so the
  split of a text on it is the same by bytes and by characters;
* a Go `map` is an association list with unique keys (`GoMap`);
* a value reached through a pointer is modelled by the value itself; a
  pointer that may be `nil` is an `Option`;
* a run-time panic is the `Except.error` result of a fallible function.
-/

namespace Bakery

/-! ## Go strings and the `strings` package -/

/-- A Go string: the sequence of its characters. -/
abbrev GoString := List Char

/-- The separator `": "` of `NewErrorResponse`. -/
def colonSep : GoString := [':', ' ']

/-- Go `strings.HasPrefix(s, prefix)`. -/
def HasPrefix : GoString → GoString → Bool
  | _, [] => true
  | [], _ :: _ => false
  | c :: s, p :: ps => c == p && HasPrefix s ps

/-- Go `strings.Index(s, substr)`: the index of the first instance of
`substr` in `s`, or `-1` if `substr` is not present in `s`. -/
def Index : GoString → GoString → Int
  | [], substr => if substr.isEmpty then 0 else -1
  | c :: s, substr =>
    if HasPrefix (c :: s) substr then 0
    else
      let i := Index s substr
      if i < 0 then -1 else i + 1

/-- The loop of Go `strings.Count` for a non-empty `substr`:
`for { i := Index(s, substr); if i == -1 { return n }; n++; s = s[i+len(substr):] }`.
The first argument bounds the number of iterations; `countLoop_fuel` shows
that `len(s) + 1` iterations are never exhausted. -/
def countLoop (substr : GoString) : Nat → GoString → Nat → Nat
  | 0, _, n => n
  | fuel + 1, s, n =>
    let i := Index s substr
    if i == -1 then n
    else countLoop substr fuel (s.drop (i.toNat + substr.length)) (n + 1)

/-- Go `strings.Count(s, substr)`: the number of non-overlapping instances of
`substr` in `s`; for an empty `substr`, one more than the number of
characters. -/
def Count (s substr : GoString) : Nat :=
  if substr.length == 0 then s.length + 1
  else countLoop substr (s.length + 1) s 0

/-- Go `strings.explode(s, n)`: `s` cut into single characters, at most `n`
pieces (all of them for a negative `n`), the last piece holding the rest. -/
def explode (s : GoString) (n : Int) : List GoString :=
  let l := s.length
  let n := if n < 0 ∨ n > (l : Int) then l else n.toNat
  if n == 0 then []
  else (s.take (n - 1)).map (fun c => [c]) ++ [s.drop (n - 1)]

/-- The loop of Go `strings.genSplit`:
`for i < n { m := Index(s, sep); if m < 0 { break }; a[i] = s[:m+sepSave];
s = s[m+len(sep):]; i++ }; a[i] = s; return a[:i+1]`.
The first argument is `n - i`, the number of iterations left. -/
def splitLoop (sep : GoString) (sepSave : Nat) : Nat → GoString → List GoString
  | 0, s => [s]
  | k + 1, s =>
    let m := Index s sep
    if m < 0 then [s]
    else s.take (m.toNat + sepSave) :: splitLoop sep sepSave k (s.drop (m.toNat + sep.length))

/-- Go `strings.genSplit(s, sep, sepSave, n)`. -/
def genSplit (s sep : GoString) (sepSave : Nat) (n : Int) : List GoString :=
  if n == 0 then []
  else if sep.isEmpty then explode s n
  else
    let n : Nat := if n < 0 then Count s sep + 1 else n.toNat
    let n : Nat := if n > s.length + 1 then s.length + 1 else n
    splitLoop sep sepSave (n - 1) s

/-- Go `strings.Split(s, sep)`, which is `genSplit(s, sep, 0, -1)`. -/
def Split (s sep : GoString) : List GoString :=
  genSplit s sep 0 (-1)

/-- Go `strings.Join(elems, sep)`: the empty string for no element, the
element for one, and otherwise the first element followed by `sep` and the
element for each further one. -/
def Join (elems : List GoString) (sep : GoString) : GoString :=
  match elems with
  | [] => []
  | [e] => e
  | e :: rest => rest.foldl (fun b s => b ++ sep ++ s) e

/-! ## Go maps -/

/-- A Go map: an association list in which every key occurs once. -/
abbrev GoMap (K V : Type) := List (K × V)

namespace GoMap

/-- The empty map (`map[K]V{}`). -/
def empty {K V : Type} : GoMap K V := []

/-- The assignment `m[k] = v`: replaces the entry of `k` when there is one. -/
def insert {K V : Type} [DecidableEq K] (m : GoMap K V) (k : K) (v : V) : GoMap K V :=
  match m with
  | [] => [(k, v)]
  | (k', v') :: rest => if k' = k then (k, v) :: rest else (k', v') :: insert rest k v

/-- The lookup `v, ok := m[k]`. -/
def lookup {K V : Type} [DecidableEq K] (m : GoMap K V) (k : K) : Option V :=
  match m with
  | [] => none
  | (k', v') :: rest => if k' = k then some v' else lookup rest k

/-- The keys of the map. -/
def keys {K V : Type} (m : GoMap K V) : List K :=
  m.map Prod.fst

end GoMap

/-! ## `handlers/error.go` -/

/-- A non-nil Go `error`: the value whose `Error()` method gives `Error`. -/
structure GoError where
  Error : GoString
  deriving DecidableEq, Repr

/-- The run-time panics of the embedded code. -/
inductive Panic where
  | nilDereference
  | indexOutOfRange
  | sliceBoundsOutOfRange
  | invalidWriteHeaderCode
  deriving DecidableEq, Repr

/-- The struct `ErrorResponse`; `Err` is the cause, tagged `json:"-"`.
`Errors` is `none` for the nil map and a detail list is `none` for the nil
slice, which `encoding/json` writes as `null`; `Err` is `none` for the nil
error. -/
structure ErrorResponse where
  Message : GoString
  Errors : Option (GoMap GoString (Option (List GoString)))
  Err : Option GoError
  deriving DecidableEq, Repr

/-- The index expression `a[i]`. -/
def indexAt {α : Type} (a : List α) (i : Nat) : Except Panic α :=
  match a.get? i with
  | some x => .ok x
  | none => .error .indexOutOfRange

/-- The slice expression `a[i:]`. -/
def sliceFrom {α : Type} (a : List α) (i : Nat) : Except Panic (List α) :=
  if i ≤ a.length then .ok (a.drop i) else .error .sliceBoundsOutOfRange

/-- The function `NewErrorResponse(message, err)`; `err` is `none` for the
nil error, whose `Error()` call panics. -/
def NewErrorResponse (message : GoString) (err : Option GoError) : Except Panic ErrorResponse :=
  match err with
  | none => .error .nilDereference
  | some e => do
    let errList := Split e.Error colonSep
    let key ← indexAt errList 0
    let details ← sliceFrom errList 1
    let errMap := GoMap.insert GoMap.empty key (some details)
    pure { Message := message, Errors := some errMap, Err := some e }

/-! ### `encoding/json` and `net/http`

`httpError` calls `json.Marshal` on an `ErrorResponse` and `http.Error`.
`json.Marshal` is modelled on the values of that struct: a string, a
`map[string][]string` and a field tagged `json:"-"`. A response writer is
modelled by the status it has sent and the body written to it; its headers
are left out. -/

namespace json

/-- The double quote. -/
def quote : Char := Char.ofNat 34

/-- The backslash. -/
def backslash : Char := Char.ofNat 92

/-- The hexadecimal digit of `n`, as in `const hex = "0123456789abcdef"`. -/
def hex (n : Nat) : Char :=
  ['0', '1', '2', '3', '4', '5', '6', '7', '8', '9', 'a', 'b', 'c', 'd', 'e', 'f'].getD n '0'

/-- How `encoding/json` writes one character of a string, with HTML escaping
as `json.Marshal` has it: the double quote and the backslash after a
backslash; line feed, carriage return and tab as `n`, `r` and `t` after a
backslash; the other characters below `0x20` and `<`, `>`, `&` as `u00` and
two hexadecimal digits after a backslash; `U+2028` and `U+2029` as `u2028`
and `u2029` after a backslash; any other character as it is. This is the
encoder of the Go releases of the repository's time; from Go 1.22 on,
backspace and form feed are written as `b` and `f` after a backslash. -/
def escape (c : Char) : GoString :=
  if c = quote then [backslash, quote]
  else if c = backslash then [backslash, backslash]
  else if c = '\n' then [backslash, 'n']
  else if c = '\r' then [backslash, 'r']
  else if c = '\t' then [backslash, 't']
  else if c.toNat < 32 ∨ c = '<' ∨ c = '>' ∨ c = '&' then
    [backslash, 'u', '0', '0', hex (c.toNat / 16), hex (c.toNat % 16)]
  else if c.toNat = 8232 ∨ c.toNat = 8233 then
    [backslash, 'u', '2', '0', '2', hex (c.toNat % 16)]
  else [c]

/-- A Go string as a JSON string: the escaped characters between double
quotes. -/
def string (s : GoString) : GoString :=
  [quote] ++ (s.map escape).flatten ++ [quote]

/-- The text `null`. -/
def null : GoString := ['n', 'u', 'l', 'l']

/-- A `[]string` as JSON: `null` for the nil slice, otherwise the strings
between brackets with commas between them. -/
def stringSlice (l : Option (List GoString)) : GoString :=
  match l with
  | none => null
  | some elems => ['['] ++ Join (elems.map string) [','] ++ [']']

/-- The order `<` of Go strings. -/
def less : GoString → GoString → Bool
  | [], [] => false
  | [], _ :: _ => true
  | _ :: _, [] => false
  | a :: s, b :: t => a.toNat < b.toNat || (a.toNat == b.toNat && less s t)

/-- One step of sorting the entries of a map by key. -/
def insertSorted (entry : GoString × Option (List GoString)) :
    List (GoString × Option (List GoString)) → List (GoString × Option (List GoString))
  | [] => [entry]
  | e :: rest => if less e.1 entry.1 then e :: insertSorted entry rest else entry :: e :: rest

/-- The entries of a map sorted by key, as `encoding/json` writes them. -/
def sortedEntries (m : GoMap GoString (Option (List GoString))) :
    List (GoString × Option (List GoString)) :=
  m.foldr insertSorted []

/-- A `map[string][]string` as JSON: `null` for the nil map, otherwise the
entries, sorted by key, each as key, colon and value, between braces with
commas between them. -/
def stringSliceMap (m : Option (GoMap GoString (Option (List GoString)))) : GoString :=
  match m with
  | none => null
  | some entries =>
    ['{'] ++ Join ((sortedEntries entries).map (fun kv => string kv.1 ++ [':'] ++ stringSlice kv.2))
      [','] ++ ['}']

/-- The call `json.Marshal(e)` for an `ErrorResponse`, from the tags of the
struct: `Message` is the member `message`, `Errors` the member `errors`, and
`Err`, tagged `json:"-"`, is left out. No value of the struct makes the
encoding fail, so the error of the Go result is always nil. -/
def Marshal (e : ErrorResponse) : Except GoError GoString :=
  .ok (['{'] ++ string ['m', 'e', 's', 's', 'a', 'g', 'e'] ++ [':'] ++ string e.Message ++ [','] ++
    string ['e', 'r', 'r', 'o', 'r', 's'] ++ [':'] ++ stringSliceMap e.Errors ++ ['}'])

end json

/-- A response writer: `status` is the status code sent by the first
`WriteHeader`, `none` while no header is written; `body` is the text
written so far. -/
structure ResponseWriter where
  status : Option Int
  body : GoString
  deriving DecidableEq, Repr

namespace http

/-- The method `WriteHeader(code)`: a header that is already written stays;
otherwise a code below 100 or above 999 panics and any other code is sent. -/
def WriteHeader (w : ResponseWriter) (code : Int) : Except Panic ResponseWriter :=
  match w.status with
  | some _ => .ok w
  | none =>
    if code < 100 ∨ code > 999 then .error .invalidWriteHeaderCode
    else .ok { w with status := some code }

/-- The method `Write(text)`: the text is added to the body, after the
header with status 200 when none is written yet. -/
def Write (w : ResponseWriter) (text : GoString) : ResponseWriter :=
  { status := some (w.status.getD 200), body := w.body ++ text }

/-- Go `http.Error(w, error, code)`: `w.WriteHeader(code)` and then
`fmt.Fprintln(w, error)`, which writes the text and a line feed. -/
def Error (w : ResponseWriter) (error : GoString) (code : Int) : Except Panic ResponseWriter :=
  match WriteHeader w code with
  | .error p => .error p
  | .ok w1 => .ok (Write w1 (error ++ ['\n']))

end http

/-- The function `httpError(w, code, e)` with `marshal` in the place of
`json.Marshal`; the response writer it has written to is returned. In the
branch taken when the encoding fails, `e.Err.Error()` panics for a nil
`e.Err`. -/
def httpErrorWith (marshal : ErrorResponse → Except GoError GoString) (w : ResponseWriter)
    (code : Int) (e : ErrorResponse) : Except Panic ResponseWriter :=
  match marshal e with
  | .error _ =>
    match e.Err with
    | none => .error .nilDereference
    | some cause => http.Error w (e.Message ++ [':', ' '] ++ cause.Error) code
  | .ok eResp => http.Error w eResp code

/-- The function `httpError(w, code, e)`. -/
def httpError (w : ResponseWriter) (code : Int) (e : ErrorResponse) :
    Except Panic ResponseWriter :=
  httpErrorWith json.Marshal w code e

/-! ## `pkg/filters/dash.go`

The manifest types are those of the go-dash library (`mpd.MPD`, `mpd.Period`,
`mpd.AdaptationSet`, `mpd.Representation`). The code reads the fields
`Periods`, `AdaptationSets`, `ContentType`, `Representations` and `Codecs`;
all the other fields of a node are carried in `other`, whose type is a
parameter. The three child lists are slices of pointers, so an assignment
made through the loop variable updates the tree. The tree that
`mpd.ReadFromString` builds has one fresh node for each element of the
document, so a node reached through a pointer is modelled by its value and
a `nil` slice by the empty list. -/

/-- The type `parsers.CaptionType`, a string type. -/
abbrev CaptionType := GoString

/-- Modelled from the spec: the struct `parsers.MediaFilters`, whose
declaration is not among the sources. `CaptionTypes` is `none` for the nil
slice; `BitrateRange` and `Protocol` are the two other axes the
specification lists. -/
structure MediaFilters where
  CaptionTypes : Option (List CaptionType)
  BitrateRange : Option (Int × Int)
  Protocol : Option GoString
  deriving DecidableEq, Repr

/-- The struct `mpd.Representation`; `Codecs` is a `*string`. -/
structure Representation (R : Type) where
  Codecs : Option GoString
  other : R
  deriving DecidableEq, Repr

/-- The struct `mpd.AdaptationSet`; `ContentType` is a `*string`. -/
structure AdaptationSet (A R : Type) where
  ContentType : Option GoString
  Representations : List (Representation R)
  other : A
  deriving DecidableEq, Repr

/-- The struct `mpd.Period`. -/
structure Period (P A R : Type) where
  AdaptationSets : List (AdaptationSet A R)
  other : P
  deriving DecidableEq, Repr

/-- The struct `mpd.MPD`. -/
structure MPD (M P A R : Type) where
  Periods : List (Period P A R)
  other : M
  deriving DecidableEq, Repr

/-- The two functions of the go-dash library that `FilterManifest` calls:
`mpd.ReadFromString`, which returns a tree or an error, and the method
`WriteToString`, which returns a string and an error (`none` for `nil`). -/
structure MPDLibrary (M P A R : Type) where
  ReadFromString : GoString → Except GoError (MPD M P A R)
  WriteToString : MPD M P A R → GoString × Option GoError

/-- The struct `DASHFilter`; the type of `config` is a parameter. -/
structure DASHFilter (C : Type) where
  manifestURL : GoString
  manifestContent : GoString
  config : C

/-- The constructor `NewDASHFilter`. -/
def NewDASHFilter {C : Type} (manifestURL manifestContent : GoString) (c : C) : DASHFilter C :=
  { manifestURL := manifestURL, manifestContent := manifestContent, config := c }

/-- The string `"text"`. -/
def textContentType : GoString := ['t', 'e', 'x', 't']

/-- The first loop of `filterCaptionTypes`:
`for _, captionType := range filters.CaptionTypes { supportedTypes[captionType] = true }`,
starting from the empty map; a nil slice is ranged over as the empty one. -/
def supportedTypesOf (captionTypes : Option (List CaptionType)) : GoMap CaptionType Bool :=
  (captionTypes.getD []).foldl (fun supportedTypes captionType =>
    GoMap.insert supportedTypes captionType true) GoMap.empty

/-- The innermost loop of `filterCaptionTypes`, over `as.Representations`:
a representation with nil `Codecs` is appended to `filteredReps`; one with
`Codecs` is appended when `supportedTypes` has that key. -/
def filterRepresentations {R : Type} (supportedTypes : GoMap CaptionType Bool)
    (reps : List (Representation R)) : List (Representation R) :=
  reps.foldl (fun filteredReps r =>
    match r.Codecs with
    | none => filteredReps ++ [r]
    | some codecs =>
      if (GoMap.lookup supportedTypes codecs).isSome then filteredReps ++ [r]
      else filteredReps) []

/-- The body of the loop over `period.AdaptationSets`: a set with nil
`ContentType` is skipped; a set whose `ContentType` is `"text"` gets
`as.Representations = filteredReps`; any other set is left as it is. -/
def filterAdaptationSet {A R : Type} (supportedTypes : GoMap CaptionType Bool)
    (as : AdaptationSet A R) : AdaptationSet A R :=
  match as.ContentType with
  | none => as
  | some contentType =>
    if contentType = textContentType then
      { as with Representations := filterRepresentations supportedTypes as.Representations }
    else as

/-- The method `filterCaptionTypes(filters, manifest)`; the tree it updates
in place is returned. -/
def filterCaptionTypes {M P A R : Type} (filters : MediaFilters) (manifest : MPD M P A R) :
    MPD M P A R :=
  let supportedTypes := supportedTypesOf filters.CaptionTypes
  { manifest with
    Periods := manifest.Periods.map (fun period =>
      { period with
        AdaptationSets := period.AdaptationSets.map (filterAdaptationSet supportedTypes) }) }

/-- The test that the innermost loop of `filterCaptionTypes` applies to a
Representation: nil `Codecs`, or `Codecs` a key of `supportedTypes`. -/
def keepsRepresentation {R : Type} (supportedTypes : GoMap CaptionType Bool)
    (r : Representation R) : Bool :=
  match r.Codecs with
  | none => true
  | some codecs => (GoMap.lookup supportedTypes codecs).isSome

/-- The stages that a call of `FilterManifest` goes through. -/
inductive Stage where
  | parse
  | captionTypes
  | serialize
  deriving DecidableEq, Repr

/-- The method `FilterManifest(filters)`, with the list of the stages the
call has gone through. The Go result `(string, error)` is a pair whose second
component is `none` for the nil error. -/
def FilterManifestRun {C M P A R : Type} (lib : MPDLibrary M P A R) (d : DASHFilter C)
    (filters : MediaFilters) : (GoString × Option GoError) × List Stage :=
  match lib.ReadFromString d.manifestContent with
  | .error err => (([], some err), [Stage.parse])
  | .ok manifest =>
    if filters.CaptionTypes.isSome then
      (lib.WriteToString (filterCaptionTypes filters manifest),
        [Stage.parse, Stage.captionTypes, Stage.serialize])
    else
      (lib.WriteToString manifest, [Stage.parse, Stage.serialize])

/-- The result of the method `FilterManifest(filters)`. -/
def FilterManifest {C M P A R : Type} (lib : MPDLibrary M P A R) (d : DASHFilter C)
    (filters : MediaFilters) : GoString × Option GoError :=
  (FilterManifestRun lib d filters).1

/-- The relation `rel` holds between every AdaptationSet of `before` and the
AdaptationSet at the same place in `after`: the two trees have the same
number of Periods and, Period by Period, the same number of AdaptationSets. -/
def EachAdaptationSet {M P A R : Type} (rel : AdaptationSet A R → AdaptationSet A R → Prop)
    (before after : MPD M P A R) : Prop :=
  List.Forall₂ (fun p q => List.Forall₂ rel p.AdaptationSets q.AdaptationSets)
    before.Periods after.Periods

/-! ### Sample values -/

/-- A Representation with codec `c` and no other field. -/
def repWith (c : String) : Representation Unit :=
  { Codecs := some c.toList, other := () }

/-- A Representation without `Codecs`. -/
def repPlain : Representation Unit :=
  { Codecs := none, other := () }

/-- A manifest of one Period with a text AdaptationSet of codecs `stpp`,
`wvtt` and none, and a video AdaptationSet of codec `avc1`. -/
def sampleMPD : MPD Unit Unit Unit Unit :=
  { Periods := [
      { AdaptationSets := [
          { ContentType := some textContentType,
            Representations := [repWith "stpp", repWith "wvtt", repPlain], other := () },
          { ContentType := some "video".toList,
            Representations := [repWith "avc1"], other := () },
          { ContentType := none,
            Representations := [repWith "wvtt"], other := () }],
        other := () }],
    other := () }

/-- A manifest of one Period with one text AdaptationSet of codecs `stpp`
and `wvtt`. -/
def sampleTextMPD : MPD Unit Unit Unit Unit :=
  { Periods := [
      { AdaptationSets := [
          { ContentType := some textContentType,
            Representations := [repWith "stpp", repWith "wvtt"], other := () }],
        other := () }],
    other := () }

/-- A stand-in for the go-dash library: it rejects the content `OK` with the
error `EOF`, as the handler test observes for a bad MPD manifest, reads any
other content as `sampleMPD`, and writes a tree as the codecs of its
Representations. -/
def sampleLibrary : MPDLibrary Unit Unit Unit Unit :=
  { ReadFromString := fun content =>
      if content = "OK".toList then .error { Error := "EOF".toList } else .ok sampleMPD,
    WriteToString := fun manifest =>
      ((manifest.Periods.map (fun p => p.AdaptationSets.map (fun a =>
          a.Representations.map (fun r => r.Codecs.getD [] ++ [';'])))).flatten.flatten.flatten, none) }

/-- The filter `CaptionTypes = l`, with no other axis set. -/
def captionFilter (l : Option (List String)) : MediaFilters :=
  { CaptionTypes := l.map (fun ts => ts.map String.toList), BitrateRange := none, Protocol := none }

/-- A response writer to which nothing has been written. -/
def freshWriter : ResponseWriter :=
  { status := none, body := [] }

/-- The error response that `NewErrorResponse` builds for the cause `EOF`. -/
def sampleResponse : ErrorResponse :=
  { Message := "failed to filter manifest".toList,
    Errors := some [("EOF".toList, some [])],
    Err := some { Error := "EOF".toList } }

/-- The error response that `NewErrorResponse` builds for the cause
`Bitrate: invalid range for provided values: ( 10000, 10 )`. -/
def sampleBitrateResponse : ErrorResponse :=
  { Message := "failed parsing filters".toList,
    Errors := some [("Bitrate".toList,
      some ["invalid range for provided values".toList, "( 10000, 10 )".toList])],
    Err := some { Error := "Bitrate: invalid range for provided values: ( 10000, 10 )".toList } }

/-! ## Facts about `Index` -/

theorem HasPrefix_iff (s p : GoString) : HasPrefix s p = true ↔ p <+: s := by
  induction s generalizing p with
  | nil =>
    cases p with
    | nil => simp [HasPrefix]
    | cons a ps => simp [HasPrefix]
  | cons c s ih =>
    cases p with
    | nil => simp [HasPrefix]
    | cons a ps =>
      simp only [HasPrefix, Bool.and_eq_true, beq_iff_eq, ih, List.cons_prefix_cons]
      constructor
      · rintro ⟨h1, h2⟩
        exact ⟨h1.symm, h2⟩
      · rintro ⟨h1, h2⟩
        exact ⟨h1.symm, h2⟩

theorem Index_ge_neg_one (s sep : GoString) : -1 ≤ Index s sep := by
  induction s with
  | nil =>
    unfold Index
    split <;> omega
  | cons c s ih =>
    unfold Index
    split
    · omega
    · simp only
      split <;> omega

/-- A non-negative `Index` is the length of the shortest text before an
instance of `sep`. -/
theorem Index_nonneg_decomp (s sep : GoString) (h : 0 ≤ Index s sep) :
    ∃ pre post, s = pre ++ sep ++ post ∧ Index s sep = (pre.length : Int) ∧
      ∀ a b, s = a ++ sep ++ b → pre.length ≤ a.length := by
  induction s with
  | nil =>
    unfold Index at h ⊢
    split at h
    · rename_i he
      have : sep = [] := by simpa using he
      subst this
      exact ⟨[], [], by simp, by simp, by simp⟩
    · omega
  | cons c s ih =>
    unfold Index at h ⊢
    split at h
    · rename_i hp
      obtain ⟨post, hpost⟩ := (HasPrefix_iff _ _).1 hp
      refine ⟨[], post, by simp [hpost], by simp [hp], by simp⟩
    · rename_i hp
      simp only at h ⊢
      split at h
      · omega
      · rename_i hi
        obtain ⟨pre, post, hs, hidx, hmin⟩ := ih (by omega)
        refine ⟨c :: pre, post, by simp [hs], ?_, ?_⟩
        · simp [hp, hi, hidx]
        · intro a b hab
          cases a with
          | nil =>
            exfalso
            apply hp
            rw [HasPrefix_iff]
            exact ⟨b, by simpa using hab.symm⟩
          | cons x a =>
            simp only [List.cons_append, List.cons.injEq] at hab
            have := hmin a b hab.2
            simp only [List.length_cons]
            omega

/-- A negative `Index` means that `sep` does not occur in `s`. -/
theorem Index_neg_absent (s sep : GoString) (h : Index s sep < 0) : ¬ sep <:+: s := by
  induction s with
  | nil =>
    unfold Index at h
    split at h
    · omega
    · rename_i he
      rintro ⟨a, b, hab⟩
      apply he
      have : sep = [] := by
        simp only [List.append_eq_nil] at hab
        exact hab.1.2
      simp [this]
  | cons c s ih =>
    unfold Index at h
    split at h
    · omega
    · rename_i hp
      simp only at h
      split at h
      · rename_i hi
        rintro ⟨a, b, hab⟩
        cases a with
        | nil =>
          apply hp
          rw [HasPrefix_iff]
          exact ⟨b, by simpa using hab⟩
        | cons x a =>
          simp only [List.cons_append, List.cons.injEq] at hab
          exact ih hi ⟨a, b, by simpa using hab.2⟩
      · have := Index_ge_neg_one s sep
        omega

theorem Index_neg_iff (s sep : GoString) : Index s sep < 0 ↔ ¬ sep <:+: s := by
  constructor
  · exact Index_neg_absent s sep
  · intro hn
    by_contra hlt
    obtain ⟨pre, post, hs, _, _⟩ := Index_nonneg_decomp s sep (by omega)
    exact hn ⟨pre, post, hs.symm⟩

/-- At a non-negative `Index` the string is the text before the instance,
the instance, and the text after it; the text before holds no instance. -/
theorem Index_split (s sep : GoString) (h : 0 ≤ Index s sep) :
    s = s.take (Index s sep).toNat ++ sep ++ s.drop ((Index s sep).toNat + sep.length) ∧
      (Index s sep).toNat + sep.length ≤ s.length ∧
      (sep ≠ [] → ¬ sep <:+: s.take (Index s sep).toNat) := by
  obtain ⟨pre, post, hs, hidx, hmin⟩ := Index_nonneg_decomp s sep h
  have hm : (Index s sep).toNat = pre.length := by omega
  have htake : s.take pre.length = pre := by
    rw [hs, List.append_assoc, List.take_left]
  have hdrop : s.drop (pre.length + sep.length) = post := by
    conv_lhs => rw [hs]
    rw [← List.length_append, List.drop_left]
  rw [hm, htake, hdrop]
  refine ⟨hs, ?_, ?_⟩
  · have := congrArg List.length hs
    simp only [List.length_append] at this
    omega
  · rintro hne ⟨a, b, hab⟩
    have h1 := hmin a (b ++ sep ++ post) (by rw [hs, ← hab]; simp)
    have h2 := congrArg List.length hab
    have h3 : 0 < sep.length := List.length_pos.2 hne
    simp only [List.length_append] at h2
    omega

/-! ## Facts about `Count` -/

theorem countLoop_acc (sep : GoString) (fuel : Nat) (s : GoString) (n : Nat) :
    countLoop sep fuel s n = n + countLoop sep fuel s 0 := by
  induction fuel generalizing s n with
  | zero => simp [countLoop]
  | succ fuel ih =>
    simp only [countLoop]
    split
    · simp
    · rw [ih _ (n + 1), ih _ (0 + 1)]
      omega

/-- The bound `len(s) + 1` on the iterations of the loop of `Count` is never
reached: any two bounds above `len(s)` give the same count. -/
theorem countLoop_fuel (sep : GoString) (hsep : sep ≠ []) (fuel fuel' : Nat) (s : GoString)
    (n : Nat) (h : s.length < fuel) (h' : s.length < fuel') :
    countLoop sep fuel s n = countLoop sep fuel' s n := by
  induction fuel generalizing s n fuel' with
  | zero => omega
  | succ fuel ih =>
    cases fuel' with
    | zero => omega
    | succ fuel' =>
      simp only [countLoop]
      split
      · rfl
      · rename_i hi
        have hge := Index_ge_neg_one s sep
        have hne : Index s sep ≠ -1 := by simpa using hi
        have hsp := (Index_split s sep (by omega)).2.1
        have hpos : 0 < sep.length := List.length_pos.2 hsep
        apply ih
        · simp only [List.length_drop]; omega
        · simp only [List.length_drop]; omega

theorem Count_eq_countLoop (s sep : GoString) (hsep : sep ≠ []) :
    Count s sep = countLoop sep (s.length + 1) s 0 := by
  have hlen : (sep.length == 0) = false := by simpa using hsep
  simp only [Count, hlen, Bool.false_eq_true, if_false]

/-- The recursion that `Count` satisfies for a non-empty separator. -/
theorem Count_unfold (s sep : GoString) (hsep : sep ≠ []) :
    Count s sep =
      if Index s sep < 0 then 0
      else 1 + Count (s.drop ((Index s sep).toNat + sep.length)) sep := by
  have hpos : 0 < sep.length := List.length_pos.2 hsep
  have hge := Index_ge_neg_one s sep
  rw [Count_eq_countLoop s sep hsep]
  simp only [countLoop]
  by_cases hi : Index s sep < 0
  · have : Index s sep = -1 := by omega
    simp [this]
  · have hne : ¬ (Index s sep = -1) := by omega
    have hsp := (Index_split s sep (by omega)).2.1
    simp only [beq_iff_eq, hne, if_false, hi]
    rw [countLoop_acc, Count_eq_countLoop _ sep hsep]
    congr 1
    apply countLoop_fuel sep hsep
    · simp only [List.length_drop]; omega
    · simp only [List.length_drop]; omega

theorem Count_le_length_aux (sep : GoString) (hsep : sep ≠ []) (n : Nat) :
    ∀ s : GoString, s.length ≤ n → Count s sep ≤ s.length := by
  have hpos : 0 < sep.length := List.length_pos.2 hsep
  induction n with
  | zero =>
    intro s hs
    rw [Count_unfold s sep hsep]
    split
    · omega
    · rename_i hi
      have hsp := (Index_split s sep (by omega)).2.1
      omega
  | succ n ih =>
    intro s hs
    rw [Count_unfold s sep hsep]
    split
    · omega
    · rename_i hi
      have hsp := (Index_split s sep (by omega)).2.1
      have := ih (s.drop ((Index s sep).toNat + sep.length))
        (by simp only [List.length_drop]; omega)
      simp only [List.length_drop] at this
      omega

theorem Count_le_length (s sep : GoString) (hsep : sep ≠ []) : Count s sep ≤ s.length :=
  Count_le_length_aux sep hsep s.length s (Nat.le_refl _)

/-! ## Facts about `Split` -/

theorem splitLoop_ne_nil (sep : GoString) (sepSave k : Nat) (s : GoString) :
    splitLoop sep sepSave k s ≠ [] := by
  cases k with
  | zero => simp [splitLoop]
  | succ k =>
    simp only [splitLoop]
    split <;> simp

theorem intercalate_cons_of_ne_nil (sep x : GoString) (xs : List GoString) (h : xs ≠ []) :
    List.intercalate sep (x :: xs) = x ++ sep ++ List.intercalate sep xs := by
  cases xs with
  | nil => exact absurd rfl h
  | cons y ys => simp [List.intercalate, List.intersperse]

/-- Joining the pieces of the split loop with the separator gives the string back. -/
theorem splitLoop_intercalate (sep : GoString) (k : Nat) (s : GoString) :
    List.intercalate sep (splitLoop sep 0 k s) = s := by
  induction k generalizing s with
  | zero => simp [splitLoop, List.intercalate]
  | succ k ih =>
    simp only [splitLoop]
    split
    · simp [List.intercalate]
    · rename_i hi
      rw [intercalate_cons_of_ne_nil _ _ _ (splitLoop_ne_nil _ _ _ _), ih]
      exact (Index_split s sep (by omega)).1.symm

/-- With at least `Count s sep` iterations no piece holds the separator. -/
theorem splitLoop_sep_free (sep : GoString) (hsep : sep ≠ []) (k : Nat) (s : GoString)
    (hk : Count s sep ≤ k) : ∀ seg ∈ splitLoop sep 0 k s, ¬ sep <:+: seg := by
  induction k generalizing s with
  | zero =>
    rw [Count_unfold s sep hsep] at hk
    have hi : Index s sep < 0 := by
      by_contra hc
      simp only [hc, if_false] at hk
      omega
    intro seg hseg
    simp only [splitLoop, List.mem_singleton] at hseg
    subst hseg
    exact Index_neg_absent _ sep hi
  | succ k ih =>
    rw [Count_unfold s sep hsep] at hk
    intro seg hseg
    simp only [splitLoop] at hseg
    split at hseg
    · rename_i hi
      simp only [List.mem_singleton] at hseg
      subst hseg
      exact Index_neg_absent _ sep hi
    · rename_i hi
      simp only [hi, if_false] at hk
      simp only [Nat.add_zero, List.mem_cons] at hseg
      rcases hseg with rfl | hseg
      · exact (Index_split s sep (by omega)).2.2 hsep
      · exact ih _ (by omega) seg hseg

/-- For a non-empty separator `Split` is the split loop run `Count s sep` times. -/
theorem Split_eq_splitLoop (s sep : GoString) (hsep : sep ≠ []) :
    Split s sep = splitLoop sep 0 (Count s sep) s := by
  have hle := Count_le_length s sep hsep
  have he : sep.isEmpty = false := by
    cases sep with
    | nil => exact absurd rfl hsep
    | cons a l => rfl
  have h1 : ¬ (Count s sep + 1 > s.length + 1) := by omega
  simp [Split, genSplit, he, h1]

theorem colonSep_ne_nil : colonSep ≠ [] := by
  simp [colonSep]

/-- The segments of `Split s sep`, for a non-empty separator: there is at
least one, joined with the separator they give `s` back, and none of them
holds the separator. -/
theorem Split_segments (s sep : GoString) (hsep : sep ≠ []) :
    ∃ first rest, Split s sep = first :: rest ∧
      List.intercalate sep (first :: rest) = s ∧
      ∀ seg ∈ first :: rest, ¬ sep <:+: seg := by
  have hne := splitLoop_ne_nil sep 0 (Count s sep) s
  have hj := splitLoop_intercalate sep (Count s sep) s
  have hf := splitLoop_sep_free sep hsep (Count s sep) s (Nat.le_refl _)
  rw [← Split_eq_splitLoop s sep hsep] at hne hj hf
  cases hsplit : Split s sep with
  | nil => exact absurd hsplit hne
  | cons first rest =>
    rw [hsplit] at hj hf
    exact ⟨first, rest, rfl, hj, hf⟩

/-- A string without the separator is split into itself alone. -/
theorem Split_absent (s sep : GoString) (hsep : sep ≠ []) (h : ¬ sep <:+: s) :
    Split s sep = [s] := by
  have hi : Index s sep < 0 := (Index_neg_iff s sep).2 h
  rw [Split_eq_splitLoop s sep hsep]
  cases Count s sep with
  | zero => simp [splitLoop]
  | succ k => simp [splitLoop, hi]

/-- What `NewErrorResponse` returns once the split is known. -/
theorem NewErrorResponse_of_split (message : GoString) (err : GoError) (key : GoString)
    (details : List GoString) (h : Split err.Error colonSep = key :: details) :
    NewErrorResponse message (some err) =
      .ok { Message := message, Errors := some [(key, some details)], Err := some err } := by
  have hle : 1 ≤ (key :: details).length := by simp
  simp only [NewErrorResponse, h, indexAt, sliceFrom, GoMap.insert, GoMap.empty, hle, if_true]
  rfl

/-! ## Facts about the caption filter -/

theorem GoMap_lookup_insert {K V : Type} [DecidableEq K] (m : GoMap K V) (k k' : K) (v : V) :
    (GoMap.lookup (GoMap.insert m k v) k').isSome = true ↔
      k' = k ∨ (GoMap.lookup m k').isSome = true := by
  induction m with
  | nil =>
    simp only [GoMap.insert, GoMap.lookup]
    by_cases hk : k = k'
    · simp [hk]
    · have : ¬ k' = k := fun h => hk h.symm
      simp [hk, this]
  | cons e rest ih =>
    obtain ⟨a, b⟩ := e
    simp only [GoMap.insert, GoMap.lookup]
    by_cases ha : a = k
    · subst ha
      simp only [if_true, GoMap.lookup]
      by_cases hk : a = k'
      · simp [hk]
      · have : ¬ k' = a := fun h => hk h.symm
        simp [hk, this]
    · simp only [ha, if_false, GoMap.lookup]
      by_cases hk : a = k'
      · simp [hk]
      · simp only [hk, if_false]
        exact ih

theorem foldl_insert_lookup (l : List CaptionType) (m : GoMap CaptionType Bool) (c : CaptionType) :
    (GoMap.lookup (l.foldl (fun st t => GoMap.insert st t true) m) c).isSome = true ↔
      c ∈ l ∨ (GoMap.lookup m c).isSome = true := by
  induction l generalizing m with
  | nil => simp
  | cons t l ih =>
    simp only [List.foldl_cons, List.mem_cons]
    rw [ih, GoMap_lookup_insert]
    tauto

/-- The map `supportedTypes` has the key `c` exactly when `c` is an element
of `CaptionTypes`. -/
theorem supportedTypesOf_lookup (cts : Option (List CaptionType)) (c : CaptionType) :
    (GoMap.lookup (supportedTypesOf cts) c).isSome = true ↔ c ∈ cts.getD [] := by
  unfold supportedTypesOf
  rw [foldl_insert_lookup]
  simp [GoMap.empty, GoMap.lookup]

theorem filterRepresentations_foldl {R : Type} (st : GoMap CaptionType Bool)
    (reps acc : List (Representation R)) :
    reps.foldl (fun filteredReps r =>
      match r.Codecs with
      | none => filteredReps ++ [r]
      | some codecs =>
        if (GoMap.lookup st codecs).isSome then filteredReps ++ [r]
        else filteredReps) acc = acc ++ reps.filter (keepsRepresentation st) := by
  induction reps generalizing acc with
  | nil => simp
  | cons r reps ih =>
    simp only [List.foldl_cons]
    rw [ih]
    cases hc : r.Codecs with
    | none => simp [List.filter, keepsRepresentation, hc]
    | some codecs =>
      by_cases hl : (GoMap.lookup st codecs).isSome = true
      · simp [List.filter, keepsRepresentation, hc, hl]
      · simp [List.filter, keepsRepresentation, hc, hl]

/-- The innermost loop keeps, in order, the Representations that pass the test. -/
theorem filterRepresentations_eq_filter {R : Type} (st : GoMap CaptionType Bool)
    (reps : List (Representation R)) :
    filterRepresentations st reps = reps.filter (keepsRepresentation st) := by
  unfold filterRepresentations
  rw [filterRepresentations_foldl]
  simp

theorem filterAdaptationSet_text {A R : Type} (st : GoMap CaptionType Bool)
    (as : AdaptationSet A R) (h : as.ContentType = some textContentType) :
    filterAdaptationSet st as =
      { as with Representations := as.Representations.filter (keepsRepresentation st) } := by
  simp [filterAdaptationSet, h, filterRepresentations_eq_filter]

theorem filterAdaptationSet_other {A R : Type} (st : GoMap CaptionType Bool)
    (as : AdaptationSet A R) (h : as.ContentType ≠ some textContentType) :
    filterAdaptationSet st as = as := by
  unfold filterAdaptationSet
  cases hc : as.ContentType with
  | none => rfl
  | some contentType =>
    have : contentType ≠ textContentType := by
      intro he
      apply h
      rw [hc, he]
    simp [this]

/-- A relation that holds between every AdaptationSet and its image under
the loop body holds between the tree and the filtered tree, place by place. -/
theorem EachAdaptationSet_filterCaptionTypes {M P A R : Type}
    (rel : AdaptationSet A R → AdaptationSet A R → Prop) (filters : MediaFilters)
    (manifest : MPD M P A R)
    (h : ∀ as, rel as (filterAdaptationSet (supportedTypesOf filters.CaptionTypes) as)) :
    EachAdaptationSet rel manifest (filterCaptionTypes filters manifest) := by
  unfold EachAdaptationSet filterCaptionTypes
  simp only [List.forall₂_map_right_iff, List.forall₂_same]
  intro p _ as _
  exact h as

/-- What the loop body does to an AdaptationSet, by cases on its
`ContentType`. -/
theorem filterAdaptationSet_eq {A R : Type} (st : GoMap CaptionType Bool)
    (as : AdaptationSet A R) :
    filterAdaptationSet st as =
      if as.ContentType = some textContentType then
        { as with Representations := as.Representations.filter (keepsRepresentation st) }
      else as := by
  by_cases h : as.ContentType = some textContentType
  · rw [filterAdaptationSet_text st as h, if_pos h]
  · rw [filterAdaptationSet_other st as h, if_neg h]

theorem filterAdaptationSet_ContentType {A R : Type} (st : GoMap CaptionType Bool)
    (as : AdaptationSet A R) :
    (filterAdaptationSet st as).ContentType = as.ContentType := by
  rw [filterAdaptationSet_eq]
  split <;> rfl

theorem filterAdaptationSet_other_fields {A R : Type} (st : GoMap CaptionType Bool)
    (as : AdaptationSet A R) :
    (filterAdaptationSet st as).other = as.other := by
  rw [filterAdaptationSet_eq]
  split <;> rfl

theorem filterAdaptationSet_sublist {A R : Type} (st : GoMap CaptionType Bool)
    (as : AdaptationSet A R) :
    List.Sublist (filterAdaptationSet st as).Representations as.Representations := by
  rw [filterAdaptationSet_eq]
  split
  · exact List.filter_sublist _
  · exact List.Sublist.refl _

theorem filterAdaptationSet_idem {A R : Type} (st : GoMap CaptionType Bool)
    (as : AdaptationSet A R) :
    filterAdaptationSet st (filterAdaptationSet st as) = filterAdaptationSet st as := by
  by_cases h : as.ContentType = some textContentType
  · have h2 : (filterAdaptationSet st as).ContentType = some textContentType := by
      rw [filterAdaptationSet_ContentType, h]
    rw [filterAdaptationSet_text st _ h2, filterAdaptationSet_text st as h]
    simp only [List.filter_filter, Bool.and_self]
  · rw [filterAdaptationSet_other st as h, filterAdaptationSet_other st as h]

/-- Two loop bodies that agree on every AdaptationSet up to `rel` give two
filtered trees that agree, place by place, up to `rel`. -/
theorem EachAdaptationSet_filterCaptionTypes_pair {M P A R : Type}
    (rel : AdaptationSet A R → AdaptationSet A R → Prop) (filters filters' : MediaFilters)
    (manifest : MPD M P A R)
    (h : ∀ as, rel (filterAdaptationSet (supportedTypesOf filters.CaptionTypes) as)
      (filterAdaptationSet (supportedTypesOf filters'.CaptionTypes) as)) :
    EachAdaptationSet rel (filterCaptionTypes filters manifest)
      (filterCaptionTypes filters' manifest) := by
  unfold EachAdaptationSet filterCaptionTypes
  simp only [List.forall₂_map_right_iff, List.forall₂_map_left_iff, List.forall₂_same]
  intro p _ as _
  exact h as

/-- Two lists of caption types with the same elements keep the same
Representations. -/
theorem keepsRepresentation_congr {R : Type} (cts cts' : Option (List CaptionType))
    (h : ∀ c, c ∈ cts.getD [] ↔ c ∈ cts'.getD []) :
    (keepsRepresentation (supportedTypesOf cts) : Representation R → Bool) =
      keepsRepresentation (supportedTypesOf cts') := by
  funext r
  unfold keepsRepresentation
  cases r.Codecs with
  | none => rfl
  | some codecs =>
    simp only
    rw [Bool.eq_iff_iff, supportedTypesOf_lookup, supportedTypesOf_lookup]
    exact h codecs

theorem filterCaptionTypes_congr {M P A R : Type} (filters filters' : MediaFilters)
    (manifest : MPD M P A R)
    (h : ∀ c, c ∈ filters.CaptionTypes.getD [] ↔ c ∈ filters'.CaptionTypes.getD []) :
    filterCaptionTypes filters manifest = filterCaptionTypes filters' manifest := by
  unfold filterCaptionTypes
  have hk : (filterAdaptationSet (supportedTypesOf filters.CaptionTypes) :
      AdaptationSet A R → AdaptationSet A R) =
      filterAdaptationSet (supportedTypesOf filters'.CaptionTypes) := by
    funext as
    rw [filterAdaptationSet_eq, filterAdaptationSet_eq,
      keepsRepresentation_congr (R := R) _ _ h]
  simp only [hk]

theorem Join_eq_intercalate (elems : List GoString) (sep : GoString) :
    Join elems sep = List.intercalate sep elems := by
  have hfold : ∀ (rest : List GoString) (b : GoString),
      rest.foldl (fun b s => b ++ sep ++ s) b =
        b ++ (rest.map (fun s => sep ++ s)).flatten := by
    intro rest
    induction rest with
    | nil => intro b; simp
    | cons x rest ih =>
      intro b
      rw [List.foldl_cons, ih]
      simp [List.append_assoc]
  have hinter : ∀ (rest : List GoString) (e : GoString),
      List.intercalate sep (e :: rest) = e ++ (rest.map (fun s => sep ++ s)).flatten := by
    intro rest
    induction rest with
    | nil => intro e; simp [List.intercalate]
    | cons x rest ih =>
      intro e
      rw [intercalate_cons_of_ne_nil sep e (x :: rest) (by simp), ih x]
      simp [List.append_assoc]
  cases elems with
  | nil => simp [Join, List.intercalate]
  | cons e rest =>
    cases rest with
    | nil => simp [Join, List.intercalate]
    | cons x rest =>
      rw [hinter]
      simp only [Join]
      rw [hfold]

/-! ## The error response -/

/-- C1: for every message and non-nil error, `NewErrorResponse` returns a
response whose `Errors` map has the single entry `key -> details`, where
`key :: details` is the split of `err.Error()` on `": "`: `key` is the first
segment, `details` the remaining segments in order; joined with `": "` the
segments give the message back and none of them holds `": "`. -/
theorem C1_errors_single_entry (message : GoString) (err : GoError) :
    ∃ key details,
      Split err.Error colonSep = key :: details ∧
      List.intercalate colonSep (key :: details) = err.Error ∧
      (∀ seg ∈ key :: details, ¬ colonSep <:+: seg) ∧
      NewErrorResponse message (some err) =
        .ok { Message := message, Errors := some [(key, some details)], Err := some err } := by
  obtain ⟨key, details, hs, hj, hf⟩ := Split_segments err.Error colonSep colonSep_ne_nil
  exact ⟨key, details, hs, hj, hf, NewErrorResponse_of_split message err key details hs⟩

/-- C1 at the error `Bitrate: invalid range for provided values: ( 10000, 10 )`:
the map is `{"Bitrate": ["invalid range for provided values", "( 10000, 10 )"]}`. -/
theorem C1_errors_single_entry_witness :
    NewErrorResponse "failed parsing filters".toList
        (some { Error := "Bitrate: invalid range for provided values: ( 10000, 10 )".toList }) =
      .ok { Message := "failed parsing filters".toList,
            Errors := some [("Bitrate".toList,
              some ["invalid range for provided values".toList, "( 10000, 10 )".toList])],
            Err := some
              { Error := "Bitrate: invalid range for provided values: ( 10000, 10 )".toList } } := by
  obtain ⟨key, details, hs, _, _, hr⟩ := C1_errors_single_entry "failed parsing filters".toList
    { Error := "Bitrate: invalid range for provided values: ( 10000, 10 )".toList }
  have hc : Split "Bitrate: invalid range for provided values: ( 10000, 10 )".toList colonSep =
      ["Bitrate".toList, "invalid range for provided values".toList, "( 10000, 10 )".toList] := by
    decide
  rw [hc] at hs
  injection hs with hk hd
  rw [hr, ← hk, ← hd]

/-- C2: for a non-nil error whose message does not contain `": "`, the
`Errors` map of `NewErrorResponse` is `{err.Error(): []}`: the key is the whole
message and the detail list is empty. -/
theorem C2_errors_without_separator (message : GoString) (err : GoError)
    (h : ¬ colonSep <:+: err.Error) :
    NewErrorResponse message (some err) =
      .ok { Message := message, Errors := some [(err.Error, some [])], Err := some err } :=
  NewErrorResponse_of_split message err err.Error []
    (Split_absent err.Error colonSep colonSep_ne_nil h)

/-- C2 at the error `EOF`: the map is `{"EOF": []}`. -/
theorem C2_errors_without_separator_witness :
    ¬ colonSep <:+: "EOF".toList ∧
    NewErrorResponse "failed to filter manifest".toList (some { Error := "EOF".toList }) =
      .ok { Message := "failed to filter manifest".toList,
            Errors := some [("EOF".toList, some [])],
            Err := some { Error := "EOF".toList } } :=
  ⟨by decide,
   C2_errors_without_separator "failed to filter manifest".toList { Error := "EOF".toList }
     (by decide)⟩

/-- C3: for every message and non-nil error, also one with the empty
message, `NewErrorResponse` returns a response whose `Errors` map has exactly
one key; the map is not empty. -/
theorem C3_errors_exactly_one_key (message : GoString) (err : GoError) :
    ∃ resp, NewErrorResponse message (some err) = .ok resp ∧
      ∃ errMap, resp.Errors = some errMap ∧
        (GoMap.keys errMap).length = 1 ∧ errMap ≠ GoMap.empty := by
  obtain ⟨key, details, hs, _, _⟩ := Split_segments err.Error colonSep colonSep_ne_nil
  refine ⟨_, NewErrorResponse_of_split message err key details hs, _, rfl, ?_, ?_⟩
  · simp [GoMap.keys]
  · simp [GoMap.empty]

/-! ## Caption filtering -/

/-- C4: with non-nil `CaptionTypes`, in every AdaptationSet whose
`ContentType` is `"text"`, a Representation that carries `Codecs` is in the
Representation list after `filterCaptionTypes` if and only if it was in the
list before and its `Codecs` value is equal to an element of `CaptionTypes`. -/
theorem C4_codecs_kept_iff_listed {M P A R : Type} (filters : MediaFilters)
    (types : List CaptionType) (manifest : MPD M P A R)
    (h : filters.CaptionTypes = some types) :
    EachAdaptationSet
      (fun before after => before.ContentType = some textContentType →
        ∀ (r : Representation R) (codecs : GoString), r.Codecs = some codecs →
          (r ∈ after.Representations ↔ r ∈ before.Representations ∧ codecs ∈ types))
      manifest (filterCaptionTypes filters manifest) := by
  apply EachAdaptationSet_filterCaptionTypes
  intro as htext r codecs hc
  rw [filterAdaptationSet_text _ as htext]
  simp only [List.mem_filter, keepsRepresentation, hc, supportedTypesOf_lookup, h,
    Option.getD_some]

/-- C4 at `CaptionTypes = ["stpp"]` and a text AdaptationSet with the codecs
`stpp` and `wvtt`: exactly the `stpp` Representation is left. -/
theorem C4_codecs_kept_iff_listed_witness :
    (captionFilter (some ["stpp"])).CaptionTypes = some ["stpp".toList] ∧
    EachAdaptationSet
      (fun before after => before.ContentType = some textContentType →
        ∀ (r : Representation Unit) (codecs : GoString), r.Codecs = some codecs →
          (r ∈ after.Representations ↔ r ∈ before.Representations ∧ codecs ∈ ["stpp".toList]))
      sampleTextMPD (filterCaptionTypes (captionFilter (some ["stpp"])) sampleTextMPD) ∧
    (filterCaptionTypes (captionFilter (some ["stpp"])) sampleTextMPD).Periods.map
        (fun p => p.AdaptationSets.map (fun as => as.Representations)) =
      [[[repWith "stpp"]]] :=
  ⟨rfl,
   C4_codecs_kept_iff_listed (captionFilter (some ["stpp"])) ["stpp".toList] sampleTextMPD rfl,
   by decide⟩

/-- C5: for every value of `CaptionTypes`, nil and empty included, in every
AdaptationSet whose `ContentType` is `"text"` every Representation without
`Codecs` is still in the Representation list after `filterCaptionTypes`. -/
theorem C5_codecless_survives {M P A R : Type} (filters : MediaFilters)
    (manifest : MPD M P A R) :
    EachAdaptationSet
      (fun before after => before.ContentType = some textContentType →
        ∀ r ∈ before.Representations, r.Codecs = none → r ∈ after.Representations)
      manifest (filterCaptionTypes filters manifest) := by
  apply EachAdaptationSet_filterCaptionTypes
  intro as htext r hr hc
  rw [filterAdaptationSet_text _ as htext]
  simp only [List.mem_filter, keepsRepresentation, hc]
  exact ⟨hr, trivial⟩

/-- C6: for every filter input, `filterCaptionTypes` leaves every
AdaptationSet whose `ContentType` is unset or is not `"text"` as it was: its
Representation list, and the whole set, are the same after as before. -/
theorem C6_other_sets_unchanged {M P A R : Type} (filters : MediaFilters)
    (manifest : MPD M P A R) :
    EachAdaptationSet
      (fun before after => before.ContentType ≠ some textContentType →
        after.Representations = before.Representations ∧ after = before)
      manifest (filterCaptionTypes filters manifest) := by
  apply EachAdaptationSet_filterCaptionTypes
  intro as hother
  rw [filterAdaptationSet_other _ as hother]
  exact ⟨rfl, rfl⟩

/-- C7: for every filter input, the Representation list of each
AdaptationSet after `filterCaptionTypes` is a sublist of its Representation
list before: the survivors keep their relative order, none is duplicated and
none is added. -/
theorem C7_survivors_sublist {M P A R : Type} (filters : MediaFilters)
    (manifest : MPD M P A R) :
    EachAdaptationSet
      (fun before after => List.Sublist after.Representations before.Representations)
      manifest (filterCaptionTypes filters manifest) := by
  apply EachAdaptationSet_filterCaptionTypes
  intro as
  by_cases htext : as.ContentType = some textContentType
  · rw [filterAdaptationSet_text _ as htext]
    exact List.filter_sublist _
  · rw [filterAdaptationSet_other _ as htext]

/-! ## `FilterManifest` -/

/-- C8: when the content parses and `CaptionTypes` is nil, `FilterManifest`
returns the serialization of the parsed tree itself, and the call goes through
parsing and serialization only. -/
theorem C8_nil_caption_types_passthrough {C M P A R : Type} (lib : MPDLibrary M P A R)
    (d : DASHFilter C) (filters : MediaFilters) (manifest : MPD M P A R)
    (hparse : lib.ReadFromString d.manifestContent = .ok manifest)
    (hnil : filters.CaptionTypes = none) :
    FilterManifest lib d filters = lib.WriteToString manifest ∧
      (FilterManifestRun lib d filters).2 = [Stage.parse, Stage.serialize] := by
  simp [FilterManifest, FilterManifestRun, hparse, hnil]

/-- C8 at the sample library and manifest: the three text codecs are all
still written. -/
theorem C8_nil_caption_types_passthrough_witness :
    sampleLibrary.ReadFromString (NewDASHFilter "u".toList "<MPD/>".toList ()).manifestContent =
      .ok sampleMPD ∧
    (captionFilter none).CaptionTypes = none ∧
    FilterManifest sampleLibrary (NewDASHFilter "u".toList "<MPD/>".toList ()) (captionFilter none) =
      sampleLibrary.WriteToString sampleMPD ∧
    (FilterManifestRun sampleLibrary (NewDASHFilter "u".toList "<MPD/>".toList ())
      (captionFilter none)).2 = [Stage.parse, Stage.serialize] :=
  ⟨rfl, rfl,
   C8_nil_caption_types_passthrough sampleLibrary (NewDASHFilter "u".toList "<MPD/>".toList ())
     (captionFilter none) sampleMPD rfl rfl⟩

/-- C9: when the parse step rejects the content, `FilterManifest` returns the
empty string and the parse error, for every filter input, and the call goes
through parsing only: no filter is run and nothing is serialized. -/
theorem C9_parse_failure {C M P A R : Type} (lib : MPDLibrary M P A R)
    (d : DASHFilter C) (filters : MediaFilters) (err : GoError)
    (hparse : lib.ReadFromString d.manifestContent = .error err) :
    FilterManifest lib d filters = ([], some err) ∧
      (FilterManifestRun lib d filters).2 = [Stage.parse] := by
  simp [FilterManifest, FilterManifestRun, hparse]

/-- C9 at the content `OK`, which the sample library rejects with `EOF`. -/
theorem C9_parse_failure_witness :
    sampleLibrary.ReadFromString (NewDASHFilter "u".toList "OK".toList ()).manifestContent =
      .error { Error := "EOF".toList } ∧
    FilterManifest sampleLibrary (NewDASHFilter "u".toList "OK".toList ())
      (captionFilter (some ["stpp"])) = ([], some { Error := "EOF".toList }) ∧
    (FilterManifestRun sampleLibrary (NewDASHFilter "u".toList "OK".toList ())
      (captionFilter (some ["stpp"]))).2 = [Stage.parse] :=
  ⟨rfl,
   C9_parse_failure sampleLibrary (NewDASHFilter "u".toList "OK".toList ())
     (captionFilter (some ["stpp"])) { Error := "EOF".toList } rfl⟩

/-- C10, as stated, fails: on the content `OK` the parse step fails with
`EOF`, `FilterManifest` returns that error as it is, its message holds no
`": "`, and `NewErrorResponse` on it gives the key `EOF` with an empty detail
list. -/
theorem C10_unwrapped_failure_counterexample :
    (FilterManifest sampleLibrary (NewDASHFilter "u".toList "OK".toList ())
      (captionFilter none)).2 = some { Error := "EOF".toList } ∧
    ¬ colonSep <:+: "EOF".toList ∧
    NewErrorResponse "failed to filter manifest".toList (some { Error := "EOF".toList }) =
      .ok { Message := "failed to filter manifest".toList,
            Errors := some [("EOF".toList, some [])],
            Err := some { Error := "EOF".toList } } :=
  ⟨rfl, by decide, rfl⟩

/-- C10, amended: an error that `FilterManifest` returns is the error of the
parse step or the error of the serialization step, returned as it is, not
wrapped; `NewErrorResponse` on it gives the first `": "` segment of that
message as the key and the remaining segments as the details, and for a
message without `": "` the key is the whole message and the detail list is
empty. -/
theorem C10_failure_is_library_error {C M P A R : Type} (lib : MPDLibrary M P A R)
    (d : DASHFilter C) (filters : MediaFilters) (message : GoString) (err : GoError)
    (hfail : (FilterManifest lib d filters).2 = some err) :
    (lib.ReadFromString d.manifestContent = .error err ∨
      ∃ manifest, lib.ReadFromString d.manifestContent = .ok manifest ∧
        (lib.WriteToString
          (if filters.CaptionTypes.isSome then filterCaptionTypes filters manifest
           else manifest)).2 = some err) ∧
    ∃ key details,
      Split err.Error colonSep = key :: details ∧
      NewErrorResponse message (some err) =
        .ok { Message := message, Errors := some [(key, some details)], Err := some err } ∧
      (¬ colonSep <:+: err.Error → key = err.Error ∧ details = []) := by
  constructor
  · unfold FilterManifest FilterManifestRun at hfail
    cases hr : lib.ReadFromString d.manifestContent with
    | error e =>
      rw [hr] at hfail
      simp only [Option.some.injEq] at hfail
      left
      rw [hfail]
    | ok manifest =>
      rw [hr] at hfail
      right
      refine ⟨manifest, rfl, ?_⟩
      by_cases hc : filters.CaptionTypes.isSome = true
      · simpa [hc] using hfail
      · simpa [hc] using hfail
  · obtain ⟨key, details, hs, _, _⟩ := Split_segments err.Error colonSep colonSep_ne_nil
    refine ⟨key, details, hs, NewErrorResponse_of_split message err key details hs, ?_⟩
    intro habs
    have h1 := Split_absent err.Error colonSep colonSep_ne_nil habs
    rw [hs] at h1
    injection h1 with hk hd
    exact ⟨hk, hd⟩

/-- C10, amended, at the content `OK`: the failure is the `EOF` of the parse
step and the detail list is empty. -/
theorem C10_failure_is_library_error_witness :
    (FilterManifest sampleLibrary (NewDASHFilter "u".toList "OK".toList ())
      (captionFilter (some ["stpp"]))).2 = some { Error := "EOF".toList } ∧
    ((sampleLibrary.ReadFromString (NewDASHFilter "u".toList "OK".toList ()).manifestContent =
        .error { Error := "EOF".toList } ∨
      ∃ manifest,
        sampleLibrary.ReadFromString (NewDASHFilter "u".toList "OK".toList ()).manifestContent =
          .ok manifest ∧
        (sampleLibrary.WriteToString
          (if (captionFilter (some ["stpp"])).CaptionTypes.isSome then
            filterCaptionTypes (captionFilter (some ["stpp"])) manifest
           else manifest)).2 = some { Error := "EOF".toList }) ∧
    ∃ key details,
      Split "EOF".toList colonSep = key :: details ∧
      NewErrorResponse "m".toList (some { Error := "EOF".toList }) =
        .ok { Message := "m".toList, Errors := some [(key, some details)],
              Err := some { Error := "EOF".toList } } ∧
      (¬ colonSep <:+: "EOF".toList → key = "EOF".toList ∧ details = [])) :=
  ⟨rfl,
   C10_failure_is_library_error sampleLibrary (NewDASHFilter "u".toList "OK".toList ())
     (captionFilter (some ["stpp"])) "m".toList { Error := "EOF".toList } rfl⟩

/-! ## The shape of the filtered tree -/

/-- C11: for every filter input, the filtered tree has the same number of
Periods, each Period has the same number of AdaptationSets, and each
AdaptationSet is at its place with its `ContentType` and its other fields; a
text AdaptationSet in which every Representation carries a codec that is not
listed ends with the empty Representation list and is still there. -/
theorem C11_empty_set_stays {M P A R : Type} (filters : MediaFilters)
    (manifest : MPD M P A R) :
    (filterCaptionTypes filters manifest).Periods.length = manifest.Periods.length ∧
    (filterCaptionTypes filters manifest).Periods.map (fun p => p.AdaptationSets.length) =
      manifest.Periods.map (fun p => p.AdaptationSets.length) ∧
    EachAdaptationSet
      (fun before after =>
        after.ContentType = before.ContentType ∧ after.other = before.other ∧
        (before.ContentType = some textContentType →
          (∀ r ∈ before.Representations,
            ∃ codecs, r.Codecs = some codecs ∧ codecs ∉ filters.CaptionTypes.getD []) →
          after.Representations = []))
      manifest (filterCaptionTypes filters manifest) := by
  refine ⟨?_, ?_, ?_⟩
  · simp [filterCaptionTypes]
  · simp [filterCaptionTypes, Function.comp_def]
  · apply EachAdaptationSet_filterCaptionTypes
    intro as
    refine ⟨filterAdaptationSet_ContentType _ as, filterAdaptationSet_other_fields _ as, ?_⟩
    intro htext hnone
    rw [filterAdaptationSet_text _ as htext]
    simp only [List.filter_eq_nil_iff]
    intro r hr
    obtain ⟨codecs, hc, hnot⟩ := hnone r hr
    simp only [keepsRepresentation, hc, supportedTypesOf_lookup]
    exact hnot

/-- C12: `filterCaptionTypes` changes the membership of Representation lists
only: the other fields of the manifest, of each Period and of each
AdaptationSet, `ContentType` included, are the same after as before; the
Representation list of a set that is not a text set is the same; and the
Representation list of every set is a sublist of the list before, so that
each survivor is one of the Representations of before with all its fields. -/
theorem C12_only_membership_changes {M P A R : Type} (filters : MediaFilters)
    (manifest : MPD M P A R) :
    (filterCaptionTypes filters manifest).other = manifest.other ∧
    List.Forall₂
      (fun p q =>
        q.other = p.other ∧
        List.Forall₂
          (fun before after =>
            after.ContentType = before.ContentType ∧ after.other = before.other ∧
            (before.ContentType ≠ some textContentType →
              after.Representations = before.Representations) ∧
            List.Sublist after.Representations before.Representations ∧
            ∀ r ∈ after.Representations, r ∈ before.Representations)
          p.AdaptationSets q.AdaptationSets)
      manifest.Periods (filterCaptionTypes filters manifest).Periods := by
  refine ⟨rfl, ?_⟩
  unfold filterCaptionTypes
  simp only [List.forall₂_map_right_iff, List.forall₂_same]
  intro p _
  refine ⟨trivial, ?_⟩
  intro as _
  refine ⟨filterAdaptationSet_ContentType _ as, filterAdaptationSet_other_fields _ as, ?_,
    filterAdaptationSet_sublist _ as, fun r hr => (filterAdaptationSet_sublist _ as).subset hr⟩
  intro hother
  rw [filterAdaptationSet_other _ as hother]

/-! ## Rendering an error response -/

/-- C13, as stated, fails for a status code that `http.Error` does not
accept and for a response writer whose header is already written: with the
code 0 or 1000 the call panics and nothing is sent, and on a writer that has
sent the status 200 the body is written but the status stays 200. -/
theorem C13_httpError_counterexample :
    httpError freshWriter 0 sampleResponse = .error Panic.invalidWriteHeaderCode ∧
    httpError freshWriter 1000 sampleResponse = .error Panic.invalidWriteHeaderCode ∧
    httpError { status := some 200, body := [] } 500 sampleResponse =
      .ok { status := some 200,
            body := "\x7b\"message\":\"failed to filter manifest\",\"errors\":\x7b\"EOF\":[]\x7d\x7d\n".toList } :=
  ⟨rfl, rfl, rfl⟩

/-- The text that `json.Marshal` gives for an `ErrorResponse`, spelled out. -/
theorem Marshal_eq (e : ErrorResponse) :
    json.Marshal e =
      .ok (['{'] ++ json.string "message".toList ++ [':'] ++ json.string e.Message ++ [','] ++
        json.string "errors".toList ++ [':'] ++ json.stringSliceMap e.Errors ++ ['}']) :=
  rfl

theorem http_Error_fresh (w : ResponseWriter) (text : GoString) (code : Int)
    (hfresh : w.status = none) (hcode : 100 ≤ code ∧ code ≤ 999) :
    http.Error w text code = .ok { status := some code, body := w.body ++ text ++ ['\n'] } := by
  have h1 : ¬ (code < 100 ∨ code > 999) := by omega
  simp [http.Error, http.WriteHeader, http.Write, hfresh, h1, List.append_assoc]

/-- C13, amended: for every error response, every response writer to which
no header has been written and every status code from 100 to 999,
`httpError` sends, at that status code, the JSON text of the response and a
line feed: the object with the member `message`, the string `e.Message`, and
the member `errors`, the map `e.Errors`, and nothing of the cause. The
encoding of an error response does not fail. Were it to fail, with a non-nil
cause the line `e.Message + ": " + e.Err.Error()` would be sent at that
status code, and with a nil cause the call would panic. -/
theorem C13_httpError_sends_json (w : ResponseWriter) (code : Int) (e : ErrorResponse)
    (hfresh : w.status = none) (hcode : 100 ≤ code ∧ code ≤ 999) :
    httpError w code e =
      .ok { status := some code,
            body := w.body ++
              (['{'] ++ json.string "message".toList ++ [':'] ++ json.string e.Message ++ [','] ++
                json.string "errors".toList ++ [':'] ++ json.stringSliceMap e.Errors ++ ['}']) ++
              ['\n'] } ∧
    (∀ k d, e.Errors = some [(k, some d)] →
      json.stringSliceMap e.Errors =
        ['{'] ++ json.string k ++ [':', '['] ++ Join (d.map json.string) [','] ++ [']', '}']) ∧
    (e.Errors = none → json.stringSliceMap e.Errors = "null".toList) ∧
    (∀ cause, httpError w code { e with Err := cause } = httpError w code e) ∧
    (∃ eResp, json.Marshal e = .ok eResp) ∧
    (∀ (marshal : ErrorResponse → Except GoError GoString) (err cause : GoError),
      marshal e = .error err → e.Err = some cause →
      httpErrorWith marshal w code e =
        .ok { status := some code,
              body := w.body ++ (e.Message ++ colonSep ++ cause.Error) ++ ['\n'] }) ∧
    (∀ (marshal : ErrorResponse → Except GoError GoString) (err : GoError),
      marshal e = .error err → e.Err = none →
      httpErrorWith marshal w code e = .error Panic.nilDereference) := by
  refine ⟨?_, ?_, ?_, ?_, ⟨_, Marshal_eq e⟩, ?_, ?_⟩
  · unfold httpError httpErrorWith
    rw [Marshal_eq]
    exact http_Error_fresh w _ code hfresh hcode
  · intro k d hk
    rw [hk]
    simp [json.stringSliceMap, json.sortedEntries, json.insertSorted, json.stringSlice, Join,
      List.append_assoc]
  · intro hn
    rw [hn]
    rfl
  · intro cause
    rfl
  · intro marshal err cause hm hc
    unfold httpErrorWith
    rw [hm, hc]
    exact http_Error_fresh w _ code hfresh hcode
  · intro marshal err hm hc
    unfold httpErrorWith
    rw [hm, hc]

/-- C13, amended, at status 500 on a fresh response writer: the response for
the cause `EOF`, and the response for the `Bitrate` cause, are sent as their
JSON text and a line feed. -/
theorem C13_httpError_sends_json_witness :
    freshWriter.status = none ∧ ((100 : Int) ≤ 500 ∧ (500 : Int) ≤ 999) ∧
    httpError freshWriter 500 sampleResponse =
      .ok { status := some 500,
            body := "\x7b\"message\":\"failed to filter manifest\",\"errors\":\x7b\"EOF\":[]\x7d\x7d\n".toList } ∧
    httpError freshWriter 400 sampleBitrateResponse =
      .ok { status := some 400,
            body := "\x7b\"message\":\"failed parsing filters\",\"errors\":\x7b\"Bitrate\":[\"invalid range for provided values\",\"( 10000, 10 )\"]\x7d\x7d\n".toList } :=
  ⟨rfl, by decide,
   ((C13_httpError_sends_json freshWriter 500 sampleResponse rfl (by decide)).1).trans rfl,
   ((C13_httpError_sends_json freshWriter 400 sampleBitrateResponse rfl (by decide)).1).trans rfl⟩

/-! ## The split of the cause -/

/-- C14: for every message and non-nil error, with `k` the one key of the
`Errors` map of `NewErrorResponse` and `d` its detail list, `strings.Join` of
`k :: d` with the separator `": "` is `err.Error()`. -/
theorem C14_join_gives_cause_back (message : GoString) (err : GoError) :
    ∃ k d,
      NewErrorResponse message (some err) =
        .ok { Message := message, Errors := some [(k, some d)], Err := some err } ∧
      Join (k :: d) colonSep = err.Error := by
  obtain ⟨k, d, hs, hj, _⟩ := Split_segments err.Error colonSep colonSep_ne_nil
  refine ⟨k, d, NewErrorResponse_of_split message err k d hs, ?_⟩
  rw [Join_eq_intercalate, hj]

/-- C15: for every non-nil error the split of `err.Error()` on `": "` has at
least one segment, so that `errList[0]` and `errList[1:]` are defined and
`NewErrorResponse` returns a value; the empty message is split into the one
empty segment, and the message `": : "` into three empty segments. -/
theorem C15_no_index_out_of_range (message : GoString) (err : GoError) :
    1 ≤ (Split err.Error colonSep).length ∧
    (∃ key, indexAt (Split err.Error colonSep) 0 = .ok key) ∧
    (∃ details, sliceFrom (Split err.Error colonSep) 1 = .ok details) ∧
    (∃ resp, NewErrorResponse message (some err) = .ok resp) ∧
    Split [] colonSep = [[]] ∧
    Split ": : ".toList colonSep = [[], [], []] := by
  obtain ⟨k, d, hs, _, _⟩ := Split_segments err.Error colonSep colonSep_ne_nil
  refine ⟨?_, ⟨k, ?_⟩, ⟨d, ?_⟩, ⟨_, NewErrorResponse_of_split message err k d hs⟩, ?_, ?_⟩
  · rw [hs]; simp
  · rw [hs]; rfl
  · rw [hs]; simp [sliceFrom]
  · decide
  · decide

/-! ## The caption filter as a function of the allow-list -/

/-- C16: when the content parses and `CaptionTypes` is the empty non-nil
list, `FilterManifest` runs `filterCaptionTypes` and returns the
serialization of the filtered tree, in which every text AdaptationSet holds
exactly its Representations without `Codecs`, in order. -/
theorem C16_empty_caption_types_filters {C M P A R : Type} (lib : MPDLibrary M P A R)
    (d : DASHFilter C) (filters : MediaFilters) (manifest : MPD M P A R)
    (hparse : lib.ReadFromString d.manifestContent = .ok manifest)
    (hempty : filters.CaptionTypes = some []) :
    FilterManifest lib d filters = lib.WriteToString (filterCaptionTypes filters manifest) ∧
    (FilterManifestRun lib d filters).2 = [Stage.parse, Stage.captionTypes, Stage.serialize] ∧
    EachAdaptationSet
      (fun before after => before.ContentType = some textContentType →
        after.Representations = before.Representations.filter (fun r => r.Codecs.isNone))
      manifest (filterCaptionTypes filters manifest) := by
  refine ⟨?_, ?_, ?_⟩
  · simp [FilterManifest, FilterManifestRun, hparse, hempty]
  · simp [FilterManifestRun, hparse, hempty]
  · apply EachAdaptationSet_filterCaptionTypes
    intro as htext
    rw [filterAdaptationSet_text _ as htext]
    apply List.filter_congr
    intro r _
    unfold keepsRepresentation
    cases hc : r.Codecs with
    | none => rfl
    | some codecs =>
      simp only [Option.isNone_some]
      rw [Bool.eq_false_iff]
      intro hl
      rw [supportedTypesOf_lookup, hempty] at hl
      simp at hl

/-- C16 at the sample manifest: of the text set only the Representation
without `Codecs` is written, and the sets that are not text sets are written
whole. -/
theorem C16_empty_caption_types_filters_witness :
    sampleLibrary.ReadFromString (NewDASHFilter "u".toList "<MPD/>".toList ()).manifestContent =
      .ok sampleMPD ∧
    (captionFilter (some [])).CaptionTypes = some [] ∧
    FilterManifest sampleLibrary (NewDASHFilter "u".toList "<MPD/>".toList ())
      (captionFilter (some [])) = (";avc1;wvtt;".toList, none) :=
  ⟨rfl, rfl,
   ((C16_empty_caption_types_filters sampleLibrary
      (NewDASHFilter "u".toList "<MPD/>".toList ()) (captionFilter (some [])) sampleMPD
      rfl rfl).1).trans (by decide)⟩

/-- C17: for every manifest tree and every filter input, applying
`filterCaptionTypes` twice with the same filters gives the same tree as
applying it once. -/
theorem C17_filterCaptionTypes_idempotent {M P A R : Type} (filters : MediaFilters)
    (manifest : MPD M P A R) :
    filterCaptionTypes filters (filterCaptionTypes filters manifest) =
      filterCaptionTypes filters manifest := by
  unfold filterCaptionTypes
  simp only [List.map_map, MPD.mk.injEq, and_true]
  apply List.map_congr_left
  intro p _
  simp only [Function.comp_apply, List.map_map, Period.mk.injEq, and_true]
  apply List.map_congr_left
  intro as _
  exact filterAdaptationSet_idem _ as

/-- C18: two filter inputs whose `CaptionTypes` are both nil, or both non-nil
with the same elements, in any order and with any repetition, give the same
result of `FilterManifest`, whatever their `BitrateRange` and `Protocol`. -/
theorem C18_depends_on_caption_set_only {C M P A R : Type} (lib : MPDLibrary M P A R)
    (d : DASHFilter C) (filters filters' : MediaFilters)
    (h : (filters.CaptionTypes = none ∧ filters'.CaptionTypes = none) ∨
      ∃ l l', filters.CaptionTypes = some l ∧ filters'.CaptionTypes = some l' ∧
        ∀ c, c ∈ l ↔ c ∈ l') :
    FilterManifest lib d filters = FilterManifest lib d filters' := by
  unfold FilterManifest FilterManifestRun
  cases lib.ReadFromString d.manifestContent with
  | error err => rfl
  | ok manifest =>
    rcases h with ⟨h1, h2⟩ | ⟨l, l', h1, h2, hl⟩
    · simp [h1, h2]
    · have hc : filterCaptionTypes filters manifest = filterCaptionTypes filters' manifest := by
        apply filterCaptionTypes_congr
        intro c
        rw [h1, h2]
        exact hl c
      simp [h1, h2, hc]

/-- C18 at two filters that list `stpp` and `wvtt` in different orders, one of
them twice, and differ in `BitrateRange` and `Protocol`. -/
theorem C18_depends_on_caption_set_only_witness :
    FilterManifest sampleLibrary (NewDASHFilter "u".toList "<MPD/>".toList ())
      { CaptionTypes := some ["stpp".toList, "wvtt".toList, "stpp".toList],
        BitrateRange := some (10, 10000), Protocol := some "hls".toList } =
    FilterManifest sampleLibrary (NewDASHFilter "u".toList "<MPD/>".toList ())
      { CaptionTypes := some ["wvtt".toList, "stpp".toList],
        BitrateRange := none, Protocol := none } :=
  C18_depends_on_caption_set_only sampleLibrary (NewDASHFilter "u".toList "<MPD/>".toList ())
    { CaptionTypes := some ["stpp".toList, "wvtt".toList, "stpp".toList],
      BitrateRange := some (10, 10000), Protocol := some "hls".toList }
    { CaptionTypes := some ["wvtt".toList, "stpp".toList],
      BitrateRange := none, Protocol := none }
    (Or.inr ⟨_, _, rfl, rfl, fun c => by simp only [List.mem_cons]; tauto⟩)

/-- C19: for two non-nil lists `A` and `B` of caption types with every
element of `A` an element of `B`, the Representation list of each
AdaptationSet after filtering with `A` is a sublist of its Representation
list after filtering with `B`. -/
theorem C19_monotone_in_allow_list {M P A R : Type} (filters filters' : MediaFilters)
    (l l' : List CaptionType) (manifest : MPD M P A R)
    (hl : filters.CaptionTypes = some l) (hl' : filters'.CaptionTypes = some l')
    (hsub : ∀ c ∈ l, c ∈ l') :
    EachAdaptationSet
      (fun withA withB => List.Sublist withA.Representations withB.Representations)
      (filterCaptionTypes filters manifest) (filterCaptionTypes filters' manifest) := by
  apply EachAdaptationSet_filterCaptionTypes_pair
  intro as
  rw [filterAdaptationSet_eq, filterAdaptationSet_eq]
  split
  · apply List.monotone_filter_right
    intro r hr
    unfold keepsRepresentation at hr ⊢
    cases hc : r.Codecs with
    | none => rfl
    | some codecs =>
      rw [hc] at hr
      simp only at hr ⊢
      rw [supportedTypesOf_lookup, hl] at hr
      rw [supportedTypesOf_lookup, hl']
      exact hsub codecs hr
  · exact List.Sublist.refl _

/-- C19 at `A = ["stpp"]` and `B = ["wvtt", "stpp"]` on the sample manifest. -/
theorem C19_monotone_in_allow_list_witness :
    (captionFilter (some ["stpp"])).CaptionTypes = some ["stpp".toList] ∧
    (captionFilter (some ["wvtt", "stpp"])).CaptionTypes = some ["wvtt".toList, "stpp".toList] ∧
    (∀ c ∈ ["stpp".toList], c ∈ ["wvtt".toList, "stpp".toList]) ∧
    EachAdaptationSet
      (fun withA withB => List.Sublist withA.Representations withB.Representations)
      (filterCaptionTypes (captionFilter (some ["stpp"])) sampleMPD)
      (filterCaptionTypes (captionFilter (some ["wvtt", "stpp"])) sampleMPD) :=
  ⟨rfl, rfl, by simp,
   C19_monotone_in_allow_list (captionFilter (some ["stpp"]))
     (captionFilter (some ["wvtt", "stpp"])) ["stpp".toList] ["wvtt".toList, "stpp".toList]
     sampleMPD rfl rfl (by simp)⟩

end Bakery
